import Mathlib

/-!
Shallow embedding of the conversation-level emotion aggregation engine
(`app/services/emotion_analyzer.py`, class `EmotionAnalyzer`), together with
theorems checking the specification's claims about it.

Modelling conventions:
* Python floats are modelled as exact rationals (`ℚ`); the places where the
  source calls `np.log` / `np.sqrt` (quality score, volatility) are modelled
  over `ℝ` with `Real.log` / `Real.sqrt`.
* Python dicts are modelled as association lists that preserve insertion
  order, mirroring CPython dict semantics (`dictOfList` models a dict
  comprehension: last value wins, first-insertion position kept).
* Exceptions are modelled with `Except String`: the `try/except` block of
  `analyze_conversation` becomes pattern matching, and the two reachable
  raise sites inside the block (Python `max()` on an empty sequence, float
  division by zero when the score grand total is 0) return `.error`.
* The classification provider (`EmotionSentimentModels`) is external to the
  engine; it is passed in as a pair of functions that may fail.
-/

namespace EmotionAnalysis

/-- A sentiment classifier output: `{"label": ..., "score": ...}`. -/
structure SentimentResult where
  label : String
  score : ℚ
  deriving Repr, DecidableEq

/-- An emotion score map: Python dict from label to score, as an
insertion-ordered association list. -/
abbrev EmotionScoreMap := List (String × ℚ)

/-- `m.get(k, d)` on a Python dict: value of the first entry with key `k`,
else the default `d`. -/
def getD (m : List (String × ℚ)) (k : String) (d : ℚ) : ℚ :=
  match m with
  | [] => d
  | (k2, v) :: rest => if k2 = k then v else getD rest k d

/-- One step of building a Python dict: assigning `m[k] = v` keeps the
position of an existing key and appends a new key at the end. -/
def dictInsert (m : List (String × ℚ)) (k : String) (v : ℚ) : List (String × ℚ) :=
  match m with
  | [] => [(k, v)]
  | (k2, v2) :: rest =>
      if k2 = k then (k2, v) :: rest else (k2, v2) :: dictInsert rest k v

/-- `{e["label"]: e["score"] for e in emotions}` (line 41): a dict built from
a list of label/score pairs. -/
def dictOfList (l : List (String × ℚ)) : List (String × ℚ) :=
  l.foldl (fun acc p => dictInsert acc p.1 p.2) []

/-- Tail of Python `max(iterable, key=get)` over dict keys: the current best
key `k` (value `v`) is replaced only by a strictly greater value, so the
first key attaining the maximum wins. -/
def maxKeyGo (k : String) (v : ℚ) : List (String × ℚ) → String
  | [] => k
  | (k2, v2) :: rest => if v2 > v then maxKeyGo k2 v2 rest else maxKeyGo k v rest

/-- Python `max(d, key=d.get)`: `none` models the `ValueError` raised on an
empty dict. -/
def maxKey? : List (String × ℚ) → Option String
  | [] => none
  | (k, v) :: rest => some (maxKeyGo k v rest)

/-- The valence weight table of `_calculate_valence` (lines 68-76). -/
def valence_map : List (String × ℚ) :=
  [("joy", 0.8), ("surprise", 0.3), ("neutral", 0.0), ("fear", -0.5),
   ("sadness", -0.7), ("anger", -0.8), ("disgust", -0.6)]

/-- `_calculate_valence` (lines 62-78): Σ score · valence_map.get(emotion, 0). -/
def calculate_valence (emotion_scores : EmotionScoreMap) : ℚ :=
  (emotion_scores.map (fun p => p.2 * getD valence_map p.1 0)).sum

/-- The arousal weight table of `_calculate_arousal` (lines 86-94). -/
def arousal_map : List (String × ℚ) :=
  [("joy", 0.7), ("surprise", 0.9), ("neutral", 0.1), ("fear", 0.8),
   ("sadness", 0.3), ("anger", 0.9), ("disgust", 0.6)]

/-- `_calculate_arousal` (lines 80-96): Σ score · arousal_map.get(emotion, 0). -/
def calculate_arousal (emotion_scores : EmotionScoreMap) : ℚ :=
  (emotion_scores.map (fun p => p.2 * getD arousal_map p.1 0)).sum

/-- `_normalize_sentiment` (lines 98-116). -/
def normalize_sentiment (sentiment : SentimentResult) : ℚ :=
  let label := sentiment.label.toLower
  if label = "positive" then sentiment.score
  else if label = "negative" then -sentiment.score
  else 0

/-- One entry of `message_level_analysis` (lines 44-53). -/
structure MessageAnalysis where
  message_index : ℕ
  emotion : String
  emotion_confidence : ℚ
  emotion_scores : EmotionScoreMap
  sentiment : String
  sentiment_score : ℚ
  valence : ℚ
  arousal : ℚ
  deriving Repr, DecidableEq

/-- The message text of the `ValueError` Python's `max` raises on an empty
sequence (line 42 with an empty score dict). -/
def emptyMaxError : String := "max() arg is an empty sequence"

/-- The message-level loop of `analyze_conversation` (lines 39-53):
builds one `MessageAnalysis` per (emotions, sentiment) pair; `max` on an
empty score dict raises, which aborts the whole loop. -/
def processMessages : List (List (String × ℚ) × SentimentResult) → ℕ →
    Except String (List MessageAnalysis)
  | [], _ => .ok []
  | (emotions, sentiment) :: rest, i =>
      let emotion_scores := dictOfList emotions
      match maxKey? emotion_scores with
      | none => .error emptyMaxError
      | some dominant_emotion =>
          match processMessages rest (i + 1) with
          | .error e => .error e
          | .ok tail =>
              .ok ({ message_index := i
                     emotion := dominant_emotion
                     emotion_confidence := getD emotion_scores dominant_emotion 0
                     emotion_scores := emotion_scores
                     sentiment := sentiment.label
                     sentiment_score := normalize_sentiment sentiment
                     valence := calculate_valence emotion_scores
                     arousal := calculate_arousal emotion_scores } :: tail)

/-- `all_emotions[emotion] = all_emotions.get(emotion, 0) + score`
(line 130): accumulate one score into the running sums dict. -/
def addScore (acc : List (String × ℚ)) (k : String) (v : ℚ) : List (String × ℚ) :=
  match acc with
  | [] => [(k, v)]
  | (k2, v2) :: rest =>
      if k2 = k then (k2, v2 + v) :: rest else (k2, v2) :: addScore rest k v

/-- The `all_emotions` accumulation loop of `_aggregate_analysis`
(lines 127-130). -/
def allEmotions (message_analyses : List MessageAnalysis) : List (String × ℚ) :=
  message_analyses.foldl
    (fun acc m => m.emotion_scores.foldl (fun a p => addScore a p.1 p.2) acc) []

/-- `np.mean` over a list of rationals (sum divided by length). -/
def meanQ (l : List ℚ) : ℚ := l.sum / l.length

/-- Population variance of a list (divisor `N`), the square of `np.std`. -/
def popVariance (l : List ℚ) : ℚ := meanQ (l.map (fun x => (x - meanQ l) ^ 2))

/-- `np.std` (population standard deviation). -/
noncomputable def npStd (l : List ℚ) : ℝ := Real.sqrt (popVariance l)

/-- `np.clip(x, 0, 1)`. -/
noncomputable def clip01 (x : ℝ) : ℝ := max 0 (min x 1)

/-- The entropy sum of `_calculate_quality_score` (line 196):
`-sum(p * np.log(p + 1e-10) for p in emotion_distribution.values())`. -/
noncomputable def entropyOf (emotion_distribution : List (String × ℚ)) : ℝ :=
  -(emotion_distribution.map
      (fun p => (p.2 : ℝ) * Real.log ((p.2 : ℝ) + 1e-10))).sum

/-- `max_entropy = np.log(len(emotion_distribution))` (line 197). -/
noncomputable def maxEntropyOf (emotion_distribution : List (String × ℚ)) : ℝ :=
  Real.log emotion_distribution.length

/-- `diversity_component = entropy / max_entropy if max_entropy > 0 else 0`
(lines 196-198). -/
noncomputable def diversityComponent (emotion_distribution : List (String × ℚ)) : ℝ :=
  if maxEntropyOf emotion_distribution > 0 then
    entropyOf emotion_distribution / maxEntropyOf emotion_distribution
  else 0

/-- `_calculate_quality_score` (lines 178-207). -/
noncomputable def calculate_quality_score (avg_sentiment : ℚ) (volatility : ℝ)
    (emotion_distribution : List (String × ℚ)) : ℝ :=
  let sentiment_component : ℝ := ((avg_sentiment : ℝ) + 1) / 2
  let volatility_component : ℝ := 1 - min (volatility / 1.5) 1
  let quality := 0.4 * sentiment_component + 0.3 * volatility_component +
    0.3 * diversityComponent emotion_distribution
  clip01 quality

/-- `_calculate_engagement` (lines 209-218). -/
def calculate_engagement (arousals : List ℚ) : String :=
  let avg_arousal := meanQ arousals
  if avg_arousal > 0.6 then "high"
  else if avg_arousal > 0.3 then "medium"
  else "low"

/-- The flattened result record of `_aggregate_analysis` / `_empty_analysis`:
the `emotion`, `sentiment` and `quality` sub-dicts are inlined as fields, and
the optional top-level `error` key is an `Option String`. -/
structure ConversationAnalysis where
  dominant_emotion : String
  emotion_confidence : ℚ
  emotion_distribution : List (String × ℚ)
  average_valence : ℚ
  average_arousal : ℚ
  emotional_volatility : ℝ
  sentiment_polarity : String
  sentiment_score : ℚ
  positive_ratio : ℚ
  negative_ratio : ℚ
  conversation_quality_score : ℝ
  message_count : ℕ
  engagement_level : String
  emotional_consistency : ℝ
  message_level_analysis : List MessageAnalysis
  error : Option String

/-- The no-raise branch of `_aggregate_analysis` (lines 118-176), reached
when the grand total of emotion scores is nonzero (so that the dict
comprehension `{k: v / total ...}` does not divide by zero and the
distribution is nonempty). -/
noncomputable def aggregateOk (message_analyses : List MessageAnalysis) :
    ConversationAnalysis :=
  let valences := message_analyses.map (·.valence)
  let arousals := message_analyses.map (·.arousal)
  let sentiment_scores := message_analyses.map (·.sentiment_score)
  let all_emotions := allEmotions message_analyses
  let total := (all_emotions.map Prod.snd).sum
  let emotion_distribution := all_emotions.map (fun p => (p.1, p.2 / total))
  let dominant_emotion := (maxKey? emotion_distribution).getD "neutral"
  let emotional_volatility : ℝ :=
    if valences.length > 1 then npStd valences else 0
  let avg_sentiment := meanQ sentiment_scores
  let sentiment_polarity :=
    if avg_sentiment > 0.2 then "positive"
    else if avg_sentiment < -0.2 then "negative"
    else "neutral"
  { dominant_emotion := dominant_emotion
    emotion_confidence := getD emotion_distribution dominant_emotion 0
    emotion_distribution := emotion_distribution
    average_valence := meanQ valences
    average_arousal := meanQ arousals
    emotional_volatility := emotional_volatility
    sentiment_polarity := sentiment_polarity
    sentiment_score := avg_sentiment
    positive_ratio :=
      ((sentiment_scores.filter (fun s => s > 0.2)).length : ℚ) /
        sentiment_scores.length
    negative_ratio :=
      ((sentiment_scores.filter (fun s => s < -0.2)).length : ℚ) /
        sentiment_scores.length
    conversation_quality_score :=
      calculate_quality_score avg_sentiment emotional_volatility
        emotion_distribution
    message_count := message_analyses.length
    engagement_level := calculate_engagement arousals
    emotional_consistency := 1 - min (emotional_volatility / 2.0) 1
    message_level_analysis := message_analyses
    error := none }

/-- The message text of Python's float `ZeroDivisionError`. -/
def zeroDivError : String := "float division by zero"

/-- `_aggregate_analysis` (lines 118-176) with its reachable raise site made
explicit: when the grand total of emotion scores is 0, the comprehension
`{k: v / total for k, v in all_emotions.items()}` (line 134) raises
`ZeroDivisionError`, which the caller's `except` turns into an error result. -/
noncomputable def aggregate_analysis (message_analyses : List MessageAnalysis) :
    Except String ConversationAnalysis :=
  if ((allEmotions message_analyses).map Prod.snd).sum = 0 then
    .error zeroDivError
  else
    .ok (aggregateOk message_analyses)

/-- `_empty_analysis` (lines 220-244). -/
noncomputable def empty_analysis : ConversationAnalysis :=
  { dominant_emotion := "neutral"
    emotion_confidence := 0
    emotion_distribution := [("neutral", 1)]
    average_valence := 0
    average_arousal := 0
    emotional_volatility := 0
    sentiment_polarity := "neutral"
    sentiment_score := 0
    positive_ratio := 0
    negative_ratio := 0
    conversation_quality_score := 0
    message_count := 0
    engagement_level := "low"
    emotional_consistency := 0
    message_level_analysis := []
    error := none }

/-- `_error_analysis` (lines 246-250): the empty analysis with the `error`
key set. -/
noncomputable def error_analysis (error_msg : String) : ConversationAnalysis :=
  { empty_analysis with error := some error_msg }

/-- The two batch calls of the classification provider
(`EmotionSentimentModels`), external to the engine; either may fail. -/
structure Provider where
  analyze_emotions_batch : List String → Except String (List (List (String × ℚ)))
  analyze_sentiment_batch : List String → Except String (List SentimentResult)

/-- Python truthiness of `msg.get("content", "").strip()` (line 28), negated:
a content string is blank exactly when stripping leading and trailing
whitespace leaves nothing, i.e. when every character is whitespace. -/
def isBlank (s : String) : Bool := s.data.all Char.isWhitespace

/-- `analyze_conversation` (lines 18-60): filter blank messages, batch-score
the survivors, reduce per message, aggregate; any failure inside the `try`
block yields `_error_analysis` instead of propagating. A message dict is
modelled by its `content` string. -/
noncomputable def analyze_conversation (models : Provider)
    (messages : List String) : ConversationAnalysis :=
  let texts := messages.filter (fun t => !isBlank t)
  if texts = [] then empty_analysis
  else
    match models.analyze_emotions_batch texts with
    | .error e => error_analysis e
    | .ok emotion_results =>
        match models.analyze_sentiment_batch texts with
        | .error e => error_analysis e
        | .ok sentiment_results =>
            match processMessages (emotion_results.zip sentiment_results) 0 with
            | .error e => error_analysis e
            | .ok message_analyses =>
                match aggregate_analysis message_analyses with
                | .error e => error_analysis e
                | .ok result => result

/-! ### General lemmas about the embedding -/

/-- Every result of `analyze_conversation` is the empty analysis, an error
analysis, or a successful aggregation. -/
theorem analyze_conversation_cases (models : Provider) (messages : List String) :
    analyze_conversation models messages = empty_analysis ∨
    (∃ e, analyze_conversation models messages = error_analysis e) ∨
    (∃ m, analyze_conversation models messages = aggregateOk m) := by
  unfold analyze_conversation
  dsimp only
  split
  · exact Or.inl rfl
  · split
    · exact Or.inr (Or.inl ⟨_, rfl⟩)
    · split
      · exact Or.inr (Or.inl ⟨_, rfl⟩)
      · split
        · exact Or.inr (Or.inl ⟨_, rfl⟩)
        · rename_i msgs hmsgs
          unfold aggregate_analysis at *
          split
          · exact Or.inr (Or.inl ⟨_, rfl⟩)
          · rename_i result hresult
            split at hresult
            · exact absurd hresult (by simp)
            · exact Or.inr (Or.inr ⟨_, (Except.ok.injEq _ _).mp hresult.symm⟩)

/-- `np.clip(x, 0, 1)` lands in `[0, 1]`. -/
theorem clip01_mem_unit (x : ℝ) : 0 ≤ clip01 x ∧ clip01 x ≤ 1 := by
  unfold clip01
  exact ⟨le_max_left 0 _, max_le (by norm_num) (min_le_right x 1)⟩

/-- If the running value is already an upper bound of the list, Python's
`max` keeps the running key. -/
theorem maxKeyGo_of_forall_le (l : List (String × ℚ)) :
    ∀ (k : String) (v : ℚ), (∀ p ∈ l, p.2 ≤ v) → maxKeyGo k v l = k := by
  induction l with
  | nil => intro k v _; rfl
  | cons q rest ih =>
    intro k v h
    obtain ⟨k2, v2⟩ := q
    unfold maxKeyGo
    rw [if_neg (not_lt.mpr (h (k2, v2) (List.mem_cons_self _ _)))]
    exact ih k v fun p hp => h p (List.mem_cons_of_mem _ hp)

/-- If the running value is strictly below the maximum `M` of the list,
Python's `max` returns the key of the first entry attaining `M`. -/
theorem maxKeyGo_find_first (l : List (String × ℚ)) :
    ∀ (k : String) (v M : ℚ), (∀ p ∈ l, p.2 ≤ M) → (∃ p ∈ l, p.2 = M) →
    v < M →
    ∃ p, l.find? (fun q => q.2 = M) = some p ∧ p.1 = maxKeyGo k v l ∧
      p.2 = M := by
  induction l with
  | nil => intro k v M _ hex _; exact absurd hex (by simp)
  | cons q rest ih =>
    intro k v M hub hex hv
    obtain ⟨k2, v2⟩ := q
    by_cases h2 : v2 = M
    · refine ⟨(k2, v2), ?_, ?_, h2⟩
      · exact List.find?_cons_of_pos _ (by simp [h2])
      · unfold maxKeyGo
        rw [if_pos (h2 ▸ hv)]
        exact (maxKeyGo_of_forall_le rest k2 v2 fun p hp =>
          h2 ▸ hub p (List.mem_cons_of_mem _ hp)).symm
    · have hv2M : v2 < M :=
        lt_of_le_of_ne (hub (k2, v2) (List.mem_cons_self _ _)) h2
      have hexr : ∃ p ∈ rest, p.2 = M := by
        rcases hex with ⟨p, hp, hpM⟩
        rcases List.mem_cons.mp hp with h | h
        · rw [h] at hpM; exact absurd hpM h2
        · exact ⟨p, h, hpM⟩
      have hubr : ∀ p ∈ rest, p.2 ≤ M := fun p hp =>
        hub p (List.mem_cons_of_mem _ hp)
      have hfind : ((k2, v2) :: rest).find? (fun q => q.2 = M) =
          rest.find? (fun q => q.2 = M) :=
        List.find?_cons_of_neg _ (by simp [h2])
      unfold maxKeyGo
      by_cases hgt : v2 > v
      · rw [if_pos hgt, hfind]; exact ih k2 v2 M hubr hexr hv2M
      · rw [if_neg hgt, hfind]; exact ih k v M hubr hexr hv

/-- `max(d, key=d.get)` returns the key of the first entry attaining the
maximum value `M` of the association list. -/
theorem maxKey?_first_max (l : List (String × ℚ)) (M : ℚ)
    (hub : ∀ p ∈ l, p.2 ≤ M) (hex : ∃ p ∈ l, p.2 = M) :
    ∃ p, l.find? (fun q => q.2 = M) = some p ∧ maxKey? l = some p.1 ∧
      p.2 = M := by
  cases l with
  | nil => exact absurd hex (by simp)
  | cons q rest =>
    obtain ⟨k2, v2⟩ := q
    by_cases h2 : v2 = M
    · refine ⟨(k2, v2), List.find?_cons_of_pos _ (by simp [h2]), ?_, h2⟩
      show some (maxKeyGo k2 v2 rest) = some k2
      rw [maxKeyGo_of_forall_le rest k2 v2 fun p hp =>
        h2 ▸ hub p (List.mem_cons_of_mem _ hp)]
    · have hv2M : v2 < M :=
        lt_of_le_of_ne (hub (k2, v2) (List.mem_cons_self _ _)) h2
      have hexr : ∃ p ∈ rest, p.2 = M := by
        rcases hex with ⟨p, hp, hpM⟩
        rcases List.mem_cons.mp hp with h | h
        · rw [h] at hpM; exact absurd hpM h2
        · exact ⟨p, h, hpM⟩
      have hubr : ∀ p ∈ rest, p.2 ≤ M := fun p hp =>
        hub p (List.mem_cons_of_mem _ hp)
      obtain ⟨p, hf, hk, hM⟩ := maxKeyGo_find_first rest k2 v2 M hubr hexr hv2M
      exact ⟨p, by rw [List.find?_cons_of_neg _ (by simp [h2])]; exact hf,
        by rw [show maxKey? ((k2, v2) :: rest) = some (maxKeyGo k2 v2 rest)
          from rfl, hk], hM⟩

/-- Every nonempty association list has an entry whose value bounds all
values. -/
theorem exists_max_pair (l : List (String × ℚ)) (hne : l ≠ []) :
    ∃ M, (∀ p ∈ l, p.2 ≤ M) ∧ (∃ p ∈ l, p.2 = M) := by
  induction l with
  | nil => exact absurd rfl hne
  | cons q rest ih =>
    cases rest with
    | nil => exact ⟨q.2, by simp, ⟨q, by simp⟩⟩
    | cons r rs =>
      obtain ⟨M, hub, hex⟩ := ih (by simp)
      by_cases h : q.2 ≤ M
      · refine ⟨M, ?_, ?_⟩
        · intro p hp
          rcases List.mem_cons.mp hp with hh | hh
          · exact hh ▸ h
          · exact hub p hh
        · rcases hex with ⟨p, hp, hpM⟩
          exact ⟨p, List.mem_cons_of_mem _ hp, hpM⟩
      · push_neg at h
        refine ⟨q.2, ?_, ⟨q, List.mem_cons_self _ _, rfl⟩⟩
        intro p hp
        rcases List.mem_cons.mp hp with hh | hh
        · exact hh ▸ le_refl _
        · exact le_trans (hub p hh) (le_of_lt h)

/-- Membership in the keys of `addScore`. -/
theorem mem_keys_addScore (k : String) (v : ℚ) (k' : String) :
    ∀ acc : List (String × ℚ),
      (k' ∈ (addScore acc k v).map Prod.fst ↔
        (k' ∈ acc.map Prod.fst ∨ k' = k)) := by
  intro acc
  induction acc with
  | nil => simp [addScore, eq_comm]
  | cons q rest ih =>
    obtain ⟨k2, v2⟩ := q
    unfold addScore
    by_cases h : k2 = k
    · subst h
      rw [if_pos rfl]
      simp only [List.map_cons, List.mem_cons]
      constructor
      · intro hh; exact Or.inl hh
      · rintro (hh | hh)
        · exact hh
        · exact Or.inl hh.symm.symm
    · rw [if_neg h]
      simp only [List.map_cons, List.mem_cons, ih]
      tauto

/-- `addScore` preserves distinctness of keys. -/
theorem nodup_keys_addScore (k : String) (v : ℚ) :
    ∀ acc : List (String × ℚ), (acc.map Prod.fst).Nodup →
      ((addScore acc k v).map Prod.fst).Nodup := by
  intro acc
  induction acc with
  | nil => intro _; simp [addScore]
  | cons q rest ih =>
    obtain ⟨k2, v2⟩ := q
    intro h
    simp only [List.map_cons, List.nodup_cons] at h
    obtain ⟨h1, h2⟩ := h
    unfold addScore
    by_cases hk : k2 = k
    · rw [if_pos hk]
      simp only [List.map_cons, List.nodup_cons]
      exact ⟨h1, h2⟩
    · rw [if_neg hk]
      simp only [List.map_cons, List.nodup_cons]
      refine ⟨?_, ih h2⟩
      rw [mem_keys_addScore]
      rintro (hh | hh)
      · exact h1 hh
      · exact hk hh

/-- The entry-accumulation fold preserves distinctness of keys. -/
theorem nodup_keys_foldl_addScore (l : List (String × ℚ)) :
    ∀ acc : List (String × ℚ), (acc.map Prod.fst).Nodup →
      ((l.foldl (fun a p => addScore a p.1 p.2) acc).map Prod.fst).Nodup := by
  induction l with
  | nil => intro acc h; exact h
  | cons q rest ih =>
    intro acc h
    exact ih _ (nodup_keys_addScore q.1 q.2 acc h)

/-- The `all_emotions` sums dict has distinct keys. -/
theorem nodup_keys_allEmotions (msgs : List MessageAnalysis) :
    ((allEmotions msgs).map Prod.fst).Nodup := by
  unfold allEmotions
  suffices h : ∀ acc : List (String × ℚ), (acc.map Prod.fst).Nodup →
      ((msgs.foldl
        (fun acc m => m.emotion_scores.foldl (fun a p => addScore a p.1 p.2) acc)
        acc).map Prod.fst).Nodup from h [] (by simp)
  induction msgs with
  | nil => intro acc h; exact h
  | cons m rest ih =>
    intro acc h
    exact ih _ (nodup_keys_foldl_addScore m.emotion_scores acc h)

/-- In an association list with distinct keys, `getD` at the key of a member
entry returns that entry's value. -/
theorem getD_eq_of_mem (l : List (String × ℚ)) (p : String × ℚ)
    (hmem : p ∈ l) (hnd : (l.map Prod.fst).Nodup) : getD l p.1 0 = p.2 := by
  induction l with
  | nil => exact absurd hmem (by simp)
  | cons q rest ih =>
    simp only [List.map_cons, List.nodup_cons] at hnd
    obtain ⟨h1, h2⟩ := hnd
    rcases List.mem_cons.mp hmem with hh | hh
    · subst hh
      unfold getD
      rw [if_pos rfl]
    · have hne : q.1 ≠ p.1 := fun hcon =>
        h1 (hcon ▸ List.mem_map_of_mem Prod.fst hh)
      unfold getD
      rw [if_neg hne]
      exact ih hh h2

/-! ### Claim theorems -/

/-- C2: for every input list of messages in which every message's content is
blank (empty after trimming whitespace), including the empty list,
`analyze_conversation` returns exactly the canonical empty analysis:
dominant emotion "neutral" with confidence 0, distribution {neutral: 1},
mean valence and arousal 0, volatility 0, sentiment polarity "neutral" with
score 0, both ratios 0, quality score 0, message count 0, engagement "low",
consistency 0, empty message-level list, and no `error` field. -/
theorem C2_all_blank_returns_canonical_empty (models : Provider)
    (messages : List String) (hblank : ∀ m ∈ messages, isBlank m = true) :
    analyze_conversation models messages = empty_analysis ∧
    (analyze_conversation models messages).dominant_emotion = "neutral" ∧
    (analyze_conversation models messages).emotion_confidence = 0 ∧
    (analyze_conversation models messages).emotion_distribution = [("neutral", 1)] ∧
    (analyze_conversation models messages).average_valence = 0 ∧
    (analyze_conversation models messages).average_arousal = 0 ∧
    (analyze_conversation models messages).emotional_volatility = 0 ∧
    (analyze_conversation models messages).sentiment_polarity = "neutral" ∧
    (analyze_conversation models messages).sentiment_score = 0 ∧
    (analyze_conversation models messages).positive_ratio = 0 ∧
    (analyze_conversation models messages).negative_ratio = 0 ∧
    (analyze_conversation models messages).conversation_quality_score = 0 ∧
    (analyze_conversation models messages).message_count = 0 ∧
    (analyze_conversation models messages).engagement_level = "low" ∧
    (analyze_conversation models messages).emotional_consistency = 0 ∧
    (analyze_conversation models messages).message_level_analysis = [] ∧
    (analyze_conversation models messages).error = none := by
  have hf : messages.filter (fun t => !isBlank t) = [] :=
    List.filter_eq_nil_iff.mpr (fun a ha => by simp [hblank a ha])
  have heq : analyze_conversation models messages = empty_analysis := by
    unfold analyze_conversation
    simp [hf]
  rw [heq]
  exact ⟨rfl, rfl, rfl, rfl, rfl, rfl, rfl, rfl, rfl, rfl, rfl, rfl, rfl, rfl,
    rfl, rfl, rfl⟩

/-- A provider whose two batch calls always fail, for witnesses. -/
def failingModels : Provider :=
  ⟨fun _ => .error "model load failed", fun _ => .error "model load failed"⟩

/-- Witness for C2 at the concrete input `["", "  "]`. -/
theorem C2_all_blank_returns_canonical_empty_witness :
    (∀ m ∈ ["", "  "], isBlank m = true) ∧
    analyze_conversation failingModels ["", "  "] = empty_analysis :=
  ⟨by decide,
   (C2_all_blank_returns_canonical_empty failingModels ["", "  "] (by decide)).1⟩

/-- C1: for every input whose filtered (non-blank) text list is non-empty,
if either classification-provider batch call fails, `analyze_conversation`
returns the canonical empty analysis augmented with an `error` field carrying
the diagnostic message, and (being a total function of the provider's
`Except` result) propagates no exception to the caller. -/
theorem C1_provider_failure_contained (models : Provider)
    (messages : List String) (e : String)
    (hne : messages.filter (fun t => !isBlank t) ≠ [])
    (hfail :
      models.analyze_emotions_batch (messages.filter (fun t => !isBlank t)) =
        .error e ∨
      (∃ rs,
        models.analyze_emotions_batch (messages.filter (fun t => !isBlank t)) =
          .ok rs ∧
        models.analyze_sentiment_batch (messages.filter (fun t => !isBlank t)) =
          .error e)) :
    analyze_conversation models messages = error_analysis e ∧
    (analyze_conversation models messages).error = some e ∧
    { analyze_conversation models messages with error := none } =
      empty_analysis := by
  have heq : analyze_conversation models messages = error_analysis e := by
    unfold analyze_conversation
    rcases hfail with h | ⟨rs, h1, h2⟩
    · simp [hne, h]
    · simp [hne, h1, h2]
  rw [heq]
  exact ⟨rfl, rfl, rfl⟩

/-- Witness for C1 at the concrete input `["hi"]` with a failing provider. -/
theorem C1_provider_failure_contained_witness :
    (["hi"].filter (fun t => !isBlank t) ≠ []) ∧
    analyze_conversation failingModels ["hi"] =
      error_analysis "model load failed" ∧
    (analyze_conversation failingModels ["hi"]).error =
      some "model load failed" :=
  ⟨by decide,
   (C1_provider_failure_contained failingModels ["hi"] "model load failed"
      (by decide) (Or.inl rfl)).1,
   (C1_provider_failure_contained failingModels ["hi"] "model load failed"
      (by decide) (Or.inl rfl)).2.1⟩

/-- C4: for every input (any message list and any provider behaviour,
including all-zero score maps, which hit the division-by-zero error path),
the returned `conversation_quality_score` lies within `[0, 1]`. -/
theorem C4_quality_score_in_unit_interval (models : Provider)
    (messages : List String) :
    0 ≤ (analyze_conversation models messages).conversation_quality_score ∧
    (analyze_conversation models messages).conversation_quality_score ≤ 1 := by
  rcases analyze_conversation_cases models messages with h | ⟨e, h⟩ | ⟨m, h⟩ <;>
    rw [h]
  · exact ⟨le_refl 0, by show (0:ℝ) ≤ 1; norm_num⟩
  · exact ⟨le_refl 0, by show (0:ℝ) ≤ 1; norm_num⟩
  · exact clip01_mem_unit _

/-- C9: sentiment polarity is "positive" exactly when the mean per-message
sentiment score is strictly greater than 0.2, "negative" exactly when it is
strictly less than -0.2, and "neutral" otherwise; in particular a mean of
exactly 0.2 or -0.2 classifies as "neutral". -/
theorem C9_polarity_thresholds (msgs : List MessageAnalysis) (hne : msgs ≠ []) :
    ((aggregateOk msgs).sentiment_polarity = "positive" ↔
      meanQ (msgs.map MessageAnalysis.sentiment_score) > 0.2) ∧
    ((aggregateOk msgs).sentiment_polarity = "negative" ↔
      meanQ (msgs.map MessageAnalysis.sentiment_score) < -0.2) ∧
    ((aggregateOk msgs).sentiment_polarity = "neutral" ↔
      (-0.2 ≤ meanQ (msgs.map MessageAnalysis.sentiment_score) ∧
        meanQ (msgs.map MessageAnalysis.sentiment_score) ≤ 0.2)) := by
  have hpol : (aggregateOk msgs).sentiment_polarity =
      (if meanQ (msgs.map MessageAnalysis.sentiment_score) > 0.2 then "positive"
       else if meanQ (msgs.map MessageAnalysis.sentiment_score) < -0.2 then
         "negative"
       else "neutral") := rfl
  rw [hpol]
  split_ifs with h1 h2
  · refine ⟨by simp [h1], by simp; linarith, by simp; intro _; linarith⟩
  · refine ⟨by simp; linarith, by simp [h2], by simp; intro h; linarith⟩
  · push_neg at h1 h2
    refine ⟨by simp; linarith, by simp; linarith, by simp [h2, h1]⟩

/-- A concrete one-message analysis record, for witnesses. -/
def witnessMsg : MessageAnalysis :=
  { message_index := 0
    emotion := "joy"
    emotion_confidence := 1
    emotion_scores := [("joy", 1)]
    sentiment := "positive"
    sentiment_score := 1
    valence := 1
    arousal := 1 }

/-- Witness for C9 at the concrete one-message conversation. -/
theorem C9_polarity_thresholds_witness :
    ([witnessMsg] ≠ []) ∧
    ((aggregateOk [witnessMsg]).sentiment_polarity = "positive" ↔
      meanQ ([witnessMsg].map MessageAnalysis.sentiment_score) > 0.2) :=
  ⟨by simp,
   (C9_polarity_thresholds [witnessMsg] (by simp)).1⟩

/-- Each message record produced by the message-level loop has its dominant
emotion selected by `maxKey?` on its own score map. -/
theorem processMessages_emotion_sel
    (pairs : List (List (String × ℚ) × SentimentResult)) :
    ∀ (i : ℕ) (msgs : List MessageAnalysis),
      processMessages pairs i = Except.ok msgs →
      ∀ m ∈ msgs, some m.emotion = maxKey? m.emotion_scores := by
  induction pairs with
  | nil =>
    intro i msgs h m hm
    unfold processMessages at h
    injection h with h2
    subst h2
    exact absurd hm (List.not_mem_nil m)
  | cons q rest ih =>
    intro i msgs h m hm
    obtain ⟨ems, s⟩ := q
    unfold processMessages at h
    dsimp only at h
    split at h
    · exact Except.noConfusion h
    · rename_i dom hd
      split at h
      · exact Except.noConfusion h
      · rename_i tail ht
        injection h with h2
        subst h2
        rcases List.mem_cons.mp hm with rfl | hm2
        · exact hd.symm
        · exact ih (i + 1) tail ht m hm2

/-- The canonical label enumeration order named by the spec. -/
def canonicalLabels : List String :=
  ["anger", "disgust", "fear", "joy", "neutral", "sadness", "surprise"]

/-- Maximum value occurring in an association list (0 for the empty list). -/
def maxVal : List (String × ℚ) → ℚ
  | [] => 0
  | p :: rest => rest.foldl (fun a q => if a < q.2 then q.2 else a) p.2

/-- Modelled from the claim's words: the first label reaching the maximum
score in the canonical enumeration order anger, disgust, fear, joy, neutral,
sadness, surprise. -/
def canonicalFirstMax (m : List (String × ℚ)) : Option String :=
  canonicalLabels.find? (fun e => getD m e 0 = maxVal m)

/-- C3 (counterexample): on the score map {joy: 1, anger: 1} (insertion
order joy first), the code selects "joy" — the first key in the map's own
iteration order attaining the maximum — while the claim's canonical-order
tie-break selects "anger"; so the claim is false on this input. -/
theorem C3_counterexample_tie_break :
    maxKey? [("joy", 1), ("anger", 1)] = some "joy" ∧
    canonicalFirstMax [("joy", 1), ("anger", 1)] = some "anger" ∧
    ("joy" : String) ≠ "anger" := by
  refine ⟨by decide, by decide, by decide⟩

/-- C3 (amended): the selected dominant emotion is a label attaining the
maximum score, and when several entries attain the maximum the selected one
is the first in the map's own insertion (iteration) order — not the
canonical enumeration order; the same selection function `maxKey?` is
applied at the message level and to the conversation-level distribution. -/
theorem C3_amended_tie_break_insertion_order (l : List (String × ℚ)) (M : ℚ)
    (hub : ∀ p ∈ l, p.2 ≤ M) (hex : ∃ p ∈ l, p.2 = M) :
    (∃ p, l.find? (fun q => q.2 = M) = some p ∧ maxKey? l = some p.1 ∧
      p.2 = M) ∧
    (∀ pairs (i : ℕ) msgs, processMessages pairs i = Except.ok msgs →
      ∀ m ∈ msgs, some m.emotion = maxKey? m.emotion_scores) ∧
    (∀ msgs, (aggregateOk msgs).dominant_emotion =
      (maxKey? (aggregateOk msgs).emotion_distribution).getD "neutral") :=
  ⟨maxKey?_first_max l M hub hex,
   fun pairs => processMessages_emotion_sel pairs,
   fun _ => rfl⟩

/-- Witness for C3 (amended) on the concrete map {a: 1, b: 2}. -/
theorem C3_amended_tie_break_insertion_order_witness :
    (∀ p ∈ [(("a" : String), (1 : ℚ)), ("b", 2)], p.2 ≤ 2) ∧
    (∃ p ∈ [(("a" : String), (1 : ℚ)), ("b", 2)], p.2 = 2) ∧
    (∃ p, [(("a" : String), (1 : ℚ)), ("b", 2)].find? (fun q => q.2 = 2) =
        some p ∧
      maxKey? [(("a" : String), (1 : ℚ)), ("b", 2)] = some p.1 ∧ p.2 = 2) :=
  ⟨by decide, by decide,
   (C3_amended_tie_break_insertion_order [("a", 1), ("b", 2)] 2
      (by decide) (by decide)).1⟩

/-- C10: for every non-empty conversation whose grand total of emotion
scores is positive, the conversation-level `emotion_confidence` equals the
normalized distribution's value at the dominant conversation emotion, and
that value is the maximum value of the distribution. -/
theorem C10_confidence_is_distribution_max (msgs : List MessageAnalysis)
    (hne : msgs ≠ [])
    (htot : 0 < ((allEmotions msgs).map Prod.snd).sum) :
    (aggregateOk msgs).emotion_confidence =
      getD (aggregateOk msgs).emotion_distribution
        (aggregateOk msgs).dominant_emotion 0 ∧
    ∀ q ∈ (aggregateOk msgs).emotion_distribution,
      q.2 ≤ (aggregateOk msgs).emotion_confidence := by
  have hall : allEmotions msgs ≠ [] := by
    intro hcon
    rw [hcon] at htot
    simp at htot
  have hdist_proj : (aggregateOk msgs).emotion_distribution =
      (allEmotions msgs).map
        (fun p => (p.1, p.2 / ((allEmotions msgs).map Prod.snd).sum)) := rfl
  have hdistne : (aggregateOk msgs).emotion_distribution ≠ [] := by
    rw [hdist_proj]
    intro hcon
    exact hall (List.map_eq_nil_iff.mp hcon)
  obtain ⟨M, hub, hex⟩ := exists_max_pair _ hdistne
  obtain ⟨p, hf, hmax, hpM⟩ := maxKey?_first_max _ M hub hex
  have hpmem : p ∈ (aggregateOk msgs).emotion_distribution :=
    List.mem_of_find?_eq_some hf
  have hnd : ((aggregateOk msgs).emotion_distribution.map Prod.fst).Nodup := by
    rw [hdist_proj, List.map_map]
    exact nodup_keys_allEmotions msgs
  have hget : getD (aggregateOk msgs).emotion_distribution p.1 0 = p.2 :=
    getD_eq_of_mem _ p hpmem hnd
  have hconf : (aggregateOk msgs).emotion_confidence =
      getD (aggregateOk msgs).emotion_distribution
        ((maxKey? (aggregateOk msgs).emotion_distribution).getD "neutral")
        0 := rfl
  refine ⟨rfl, ?_⟩
  intro q hq
  rw [hconf, hmax]
  show q.2 ≤ getD (aggregateOk msgs).emotion_distribution p.1 0
  rw [hget, hpM]
  exact hub q hq

/-- Witness for C10 on the concrete one-message conversation. -/
theorem C10_confidence_is_distribution_max_witness :
    ([witnessMsg] ≠ []) ∧
    (0 < ((allEmotions [witnessMsg]).map Prod.snd).sum) ∧
    ((aggregateOk [witnessMsg]).emotion_confidence =
      getD (aggregateOk [witnessMsg]).emotion_distribution
        (aggregateOk [witnessMsg]).dominant_emotion 0) :=
  ⟨by simp, by norm_num [allEmotions, addScore, witnessMsg],
   (C10_confidence_is_distribution_max [witnessMsg] (by simp)
      (by norm_num [allEmotions, addScore, witnessMsg])).1⟩

/-- Modelled from the claim's words: the fixed valence weight of a label,
with labels absent from the table contributing 0. -/
def valenceWeight (label : String) : ℚ :=
  if label = "joy" then 0.8
  else if label = "surprise" then 0.3
  else if label = "neutral" then 0.0
  else if label = "fear" then -0.5
  else if label = "sadness" then -0.7
  else if label = "anger" then -0.8
  else if label = "disgust" then -0.6
  else 0

/-- Modelled from the claim's words: the fixed arousal weight of a label,
with labels absent from the table contributing 0. -/
def arousalWeight (label : String) : ℚ :=
  if label = "joy" then 0.7
  else if label = "surprise" then 0.9
  else if label = "neutral" then 0.1
  else if label = "fear" then 0.8
  else if label = "sadness" then 0.3
  else if label = "anger" then 0.9
  else if label = "disgust" then 0.6
  else 0

/-- The dict lookup into the code's valence table agrees with the claim's
weight function on every label. -/
theorem getD_valence_map_eq (label : String) :
    getD valence_map label 0 = valenceWeight label := by
  unfold valenceWeight
  by_cases h1 : label = "joy"
  · subst h1; rfl
  rw [if_neg h1]
  by_cases h2 : label = "surprise"
  · subst h2; rfl
  rw [if_neg h2]
  by_cases h3 : label = "neutral"
  · subst h3; rfl
  rw [if_neg h3]
  by_cases h4 : label = "fear"
  · subst h4; rfl
  rw [if_neg h4]
  by_cases h5 : label = "sadness"
  · subst h5; rfl
  rw [if_neg h5]
  by_cases h6 : label = "anger"
  · subst h6; rfl
  rw [if_neg h6]
  by_cases h7 : label = "disgust"
  · subst h7; rfl
  rw [if_neg h7]
  simp only [valence_map, getD]
  rw [if_neg fun hc => h1 hc.symm, if_neg fun hc => h2 hc.symm,
    if_neg fun hc => h3 hc.symm, if_neg fun hc => h4 hc.symm,
    if_neg fun hc => h5 hc.symm, if_neg fun hc => h6 hc.symm,
    if_neg fun hc => h7 hc.symm]

/-- The dict lookup into the code's arousal table agrees with the claim's
weight function on every label. -/
theorem getD_arousal_map_eq (label : String) :
    getD arousal_map label 0 = arousalWeight label := by
  unfold arousalWeight
  by_cases h1 : label = "joy"
  · subst h1; rfl
  rw [if_neg h1]
  by_cases h2 : label = "surprise"
  · subst h2; rfl
  rw [if_neg h2]
  by_cases h3 : label = "neutral"
  · subst h3; rfl
  rw [if_neg h3]
  by_cases h4 : label = "fear"
  · subst h4; rfl
  rw [if_neg h4]
  by_cases h5 : label = "sadness"
  · subst h5; rfl
  rw [if_neg h5]
  by_cases h6 : label = "anger"
  · subst h6; rfl
  rw [if_neg h6]
  by_cases h7 : label = "disgust"
  · subst h7; rfl
  rw [if_neg h7]
  simp only [arousal_map, getD]
  rw [if_neg fun hc => h1 hc.symm, if_neg fun hc => h2 hc.symm,
    if_neg fun hc => h3 hc.symm, if_neg fun hc => h4 hc.symm,
    if_neg fun hc => h5 hc.symm, if_neg fun hc => h6 hc.symm,
    if_neg fun hc => h7 hc.symm]

/-- C8: for every emotion score map, the message valence is the sum over
labels present of score times the fixed valence weight
{joy: 0.8, surprise: 0.3, neutral: 0, fear: -0.5, sadness: -0.7,
anger: -0.8, disgust: -0.6}, and the message arousal is the sum over labels
present of score times the fixed arousal weight
{joy: 0.7, surprise: 0.9, neutral: 0.1, fear: 0.8, sadness: 0.3,
anger: 0.9, disgust: 0.6}; absent labels contribute 0. -/
theorem C8_valence_arousal_weighted_sums (m : EmotionScoreMap) :
    calculate_valence m = (m.map (fun p => p.2 * valenceWeight p.1)).sum ∧
    calculate_arousal m = (m.map (fun p => p.2 * arousalWeight p.1)).sum := by
  unfold calculate_valence calculate_arousal
  constructor
  · exact congrArg List.sum
      (List.map_congr_left fun p _ => by rw [getD_valence_map_eq])
  · exact congrArg List.sum
      (List.map_congr_left fun p _ => by rw [getD_arousal_map_eq])

/-- Modelled from the claim's words: max entropy as the natural log of the
number of distinct labels with nonzero mass in the distribution, and
diversity as entropy over max entropy, 0 when max entropy is 0. -/
noncomputable def claimDiversity (dist : List (String × ℚ)) : ℝ :=
  if Real.log (((dist.filter (fun p => p.2 ≠ 0)).length : ℕ) : ℝ) > 0 then
    entropyOf dist / Real.log (((dist.filter (fun p => p.2 ≠ 0)).length : ℕ) : ℝ)
  else 0

/-- C5 (counterexample): on the normalized distribution {joy: 1, sadness: 0}
(one zero-mass label), the code divides the entropy by the log of the number
of labels present (ln 2) and yields a nonzero (slightly negative) value,
while the claim's formula counts only nonzero-mass labels (ln 1 = 0) and
yields 0 — so the claim is false on this input. -/
theorem C5_counterexample_zero_mass_label :
    diversityComponent [("joy", 1), ("sadness", 0)] ≠
      claimDiversity [("joy", 1), ("sadness", 0)] := by
  have hfl : (([("joy", (1 : ℚ)), ("sadness", 0)].filter
      (fun p => p.2 ≠ 0)).length : ℕ) = 1 := by decide
  have hspec : claimDiversity [("joy", 1), ("sadness", 0)] = 0 := by
    unfold claimDiversity
    rw [hfl]
    norm_num
  have hlogtwo : Real.log 2 > 0 := Real.log_pos (by norm_num)
  have hlogeps : Real.log (1 + 1e-10) > 0 := Real.log_pos (by norm_num)
  have hcode : diversityComponent [("joy", 1), ("sadness", 0)] =
      -Real.log (1 + 1e-10) / Real.log 2 := by
    unfold diversityComponent maxEntropyOf entropyOf
    rw [if_pos (by exact_mod_cast hlogtwo)]
    norm_num
  rw [hcode, hspec]
  intro hcon
  rcases div_eq_zero_iff.mp hcon with h | h
  · exact absurd (neg_eq_zero.mp h) (ne_of_gt hlogeps)
  · exact absurd h (ne_of_gt hlogtwo)

/-- Modelled from the amended claim: max entropy as the natural log of the
number of labels present in the distribution (zero-mass labels included),
diversity 0 when the distribution has at most one label. -/
noncomputable def amendedDiversity (dist : List (String × ℚ)) : ℝ :=
  if 1 < dist.length then entropyOf dist / Real.log (dist.length : ℝ)
  else 0

/-- C5 (amended): in the quality-score computation, the diversity component
equals entropy divided by max entropy where max entropy is the natural log
of the number of labels **present** in the distribution (including
zero-mass labels), and it is 0 when the distribution has at most one
label. -/
theorem C5_amended_max_entropy_counts_all_labels
    (dist : List (String × ℚ)) :
    diversityComponent dist = amendedDiversity dist := by
  unfold diversityComponent amendedDiversity maxEntropyOf
  by_cases h : 1 < dist.length
  · rw [if_pos h, if_pos (Real.log_pos (by exact_mod_cast h))]
  · rw [if_neg h, if_neg]
    push_neg at h
    exact not_lt.mpr (Real.log_nonpos (by positivity) (by exact_mod_cast h))

/-- `dictInsert` never yields an empty dict. -/
theorem dictInsert_ne_nil (m : List (String × ℚ)) (k : String) (v : ℚ) :
    dictInsert m k v ≠ [] := by
  cases m with
  | nil => simp [dictInsert]
  | cons q rest =>
    obtain ⟨k2, v2⟩ := q
    unfold dictInsert
    split_ifs <;> simp

/-- Folding `dictInsert` over a list never empties a nonempty dict. -/
theorem foldl_dictInsert_ne_nil (l : List (String × ℚ)) :
    ∀ acc : List (String × ℚ), acc ≠ [] →
      l.foldl (fun a p => dictInsert a p.1 p.2) acc ≠ [] := by
  induction l with
  | nil => intro acc h; exact h
  | cons q rest ih =>
    intro acc _
    exact ih (dictInsert acc q.1 q.2) (dictInsert_ne_nil acc q.1 q.2)

/-- A dict built from a nonempty pair list is nonempty. -/
theorem dictOfList_ne_nil (l : List (String × ℚ)) (h : l ≠ []) :
    dictOfList l ≠ [] := by
  cases l with
  | nil => exact absurd rfl h
  | cons q rest =>
    show rest.foldl (fun a p => dictInsert a p.1 p.2)
      (dictInsert [] q.1 q.2) ≠ []
    exact foldl_dictInsert_ne_nil rest _ (dictInsert_ne_nil [] q.1 q.2)

/-- `maxKey?` is `none` exactly on the empty dict. -/
theorem maxKey?_eq_none_iff (l : List (String × ℚ)) :
    maxKey? l = none ↔ l = [] := by
  cases l <;> simp [maxKey?]

/-- If any zipped pair carries an empty emotion map, the message-level loop
raises Python's empty-`max` `ValueError`. -/
theorem processMessages_error_of_empty_map
    (pairs : List (List (String × ℚ) × SentimentResult)) :
    ∀ i : ℕ, (∃ p ∈ pairs, p.1 = []) →
      processMessages pairs i = Except.error emptyMaxError := by
  induction pairs with
  | nil => intro i h; simp at h
  | cons q rest ih =>
    intro i h
    obtain ⟨ems, s⟩ := q
    by_cases hq : ems = []
    · subst hq
      rfl
    · have hrest : ∃ p ∈ rest, p.1 = [] := by
        rcases h with ⟨p, hp, hp1⟩
        rcases List.mem_cons.mp hp with rfl | hmem
        · exact absurd hp1 hq
        · exact ⟨p, hmem, hp1⟩
      unfold processMessages
      dsimp only
      cases hm : maxKey? (dictOfList ems) with
      | none =>
        exact absurd (maxKey?_eq_none_iff _ |>.mp hm) (dictOfList_ne_nil ems hq)
      | some dom =>
        rw [ih (i + 1) hrest]

/-- A provider returning one empty emotion score map, for C6. -/
def emptyMapModels : Provider :=
  ⟨fun _ => .ok [[]], fun _ => .ok [{ label := "neutral", score := 1 }]⟩

/-- C6 (counterexample): on a message whose emotion score map is empty, the
message-level reducer does not produce a neutral MessageAnalysis with
valence/arousal 0; Python's `max` raises and `analyze_conversation` takes
the error path, returning the canonical empty analysis plus an `error`
field and an empty message-level list. -/
theorem C6_counterexample_empty_map_error_path :
    processMessages [([], { label := "neutral", score := 1 })] 0 =
      Except.error emptyMaxError ∧
    analyze_conversation emptyMapModels ["hi"] =
      error_analysis emptyMaxError ∧
    (analyze_conversation emptyMapModels ["hi"]).message_level_analysis = [] ∧
    (analyze_conversation emptyMapModels ["hi"]).error = some emptyMaxError :=
  ⟨rfl, rfl, rfl, rfl⟩

/-- C6 (amended): for every conversation in which the provider succeeds but
some message's emotion score map is empty, the message-level reduction
raises (Python `max` on an empty sequence) instead of producing a neutral
record, and `analyze_conversation` returns the canonical empty analysis
augmented with that error message and an empty message-level list. -/
theorem C6_amended_empty_map_takes_error_path (models : Provider)
    (messages : List String) (ers : List (List (String × ℚ)))
    (srs : List SentimentResult)
    (hne : messages.filter (fun t => !isBlank t) ≠ [])
    (he : models.analyze_emotions_batch
      (messages.filter (fun t => !isBlank t)) = .ok ers)
    (hs : models.analyze_sentiment_batch
      (messages.filter (fun t => !isBlank t)) = .ok srs)
    (hempty : ∃ p ∈ ers.zip srs, p.1 = []) :
    analyze_conversation models messages = error_analysis emptyMaxError ∧
    (analyze_conversation models messages).error = some emptyMaxError ∧
    (analyze_conversation models messages).message_level_analysis = [] := by
  have hproc := processMessages_error_of_empty_map (ers.zip srs) 0 hempty
  have heq : analyze_conversation models messages =
      error_analysis emptyMaxError := by
    unfold analyze_conversation
    simp [hne, he, hs, hproc]
  rw [heq]
  exact ⟨rfl, rfl, rfl⟩

/-- Witness for C6 (amended) at the concrete input `["hi"]`. -/
theorem C6_amended_empty_map_takes_error_path_witness :
    (["hi"].filter (fun t => !isBlank t) ≠ []) ∧
    (∃ p ∈ ([[]] : List (List (String × ℚ))).zip
        [({ label := "neutral", score := 1 } : SentimentResult)], p.1 = []) ∧
    analyze_conversation emptyMapModels ["hi"] = error_analysis emptyMaxError :=
  ⟨by decide, by decide,
   (C6_amended_empty_map_takes_error_path emptyMapModels ["hi"]
      [[]] [{ label := "neutral", score := 1 }]
      (by decide) rfl rfl (by decide)).1⟩

/-- The spec's grand total: all emotion scores summed over all labels and
all messages. -/
def grandTotal (msgs : List MessageAnalysis) : ℚ :=
  (msgs.map (fun m => (m.emotion_scores.map Prod.snd).sum)).sum

/-- The spec's per-label sum: one label's scores summed across all
messages. -/
def labelSum (msgs : List MessageAnalysis) (k : String) : ℚ :=
  (msgs.map (fun m =>
    ((m.emotion_scores.filter (fun p => p.1 = k)).map Prod.snd).sum)).sum

/-- `addScore` adds its score to the total of the accumulator's values. -/
theorem sum_snd_addScore (k : String) (v : ℚ) :
    ∀ acc : List (String × ℚ),
      ((addScore acc k v).map Prod.snd).sum = (acc.map Prod.snd).sum + v := by
  intro acc
  induction acc with
  | nil => simp [addScore]
  | cons q rest ih =>
    obtain ⟨k2, v2⟩ := q
    unfold addScore
    by_cases h : k2 = k
    · rw [if_pos h]
      simp only [List.map_cons, List.sum_cons]
      ring
    · rw [if_neg h]
      simp only [List.map_cons, List.sum_cons, ih]
      ring

/-- Folding `addScore` over an entry list adds the entries' total score. -/
theorem sum_snd_foldl_addScore (l : List (String × ℚ)) :
    ∀ acc : List (String × ℚ),
      ((l.foldl (fun a p => addScore a p.1 p.2) acc).map Prod.snd).sum =
        (acc.map Prod.snd).sum + (l.map Prod.snd).sum := by
  induction l with
  | nil => intro acc; simp
  | cons q rest ih =>
    intro acc
    simp only [List.foldl_cons, List.map_cons, List.sum_cons]
    rw [ih, sum_snd_addScore]
    ring

/-- The total of the `all_emotions` sums dict is the grand total of all
scores. -/
theorem sum_snd_allEmotions (msgs : List MessageAnalysis) :
    ((allEmotions msgs).map Prod.snd).sum = grandTotal msgs := by
  unfold allEmotions
  suffices h : ∀ acc : List (String × ℚ),
      ((msgs.foldl
        (fun acc m => m.emotion_scores.foldl (fun a p => addScore a p.1 p.2) acc)
        acc).map Prod.snd).sum = (acc.map Prod.snd).sum + grandTotal msgs by
    simpa using h []
  induction msgs with
  | nil => intro acc; simp [grandTotal]
  | cons m rest ih =>
    intro acc
    simp only [List.foldl_cons]
    rw [ih, sum_snd_foldl_addScore]
    simp only [grandTotal, List.map_cons, List.sum_cons]
    ring

/-- `getD` after `addScore`: the looked-up value grows by `v` exactly at the
added key. -/
theorem getD_addScore (k : String) (v : ℚ) (k' : String) :
    ∀ acc : List (String × ℚ),
      getD (addScore acc k v) k' 0 =
        getD acc k' 0 + (if k = k' then v else 0) := by
  intro acc
  induction acc with
  | nil =>
    show getD [(k, v)] k' 0 = getD [] k' 0 + _
    unfold getD
    by_cases h : k = k'
    · rw [if_pos h, if_pos h]; ring
    · rw [if_neg h, if_neg h]; simp [getD]
  | cons q rest ih =>
    obtain ⟨k2, v2⟩ := q
    unfold addScore
    by_cases h : k2 = k
    · rw [if_pos h]
      show (if k2 = k' then v2 + v else getD rest k' 0) =
        (if k2 = k' then v2 else getD rest k' 0) + _
      by_cases h' : k2 = k'
      · rw [if_pos h', if_pos h', if_pos (h.symm.trans h')]
      · rw [if_neg h', if_neg h',
          if_neg (show ¬k = k' from fun hc => h' (h.trans hc))]
        ring
    · rw [if_neg h]
      show (if k2 = k' then v2 else getD (addScore rest k v) k' 0) =
        (if k2 = k' then v2 else getD rest k' 0) + _
      by_cases h' : k2 = k'
      · rw [if_pos h', if_pos h',
          if_neg (show ¬k = k' from fun hc => h (hc ▸ h'))]
        ring
      · rw [if_neg h', if_neg h', ih]

/-- `getD` after folding `addScore` over an entry list: the looked-up value
grows by the sum of the entries at that key. -/
theorem getD_foldl_addScore (l : List (String × ℚ)) (k' : String) :
    ∀ acc : List (String × ℚ),
      getD (l.foldl (fun a p => addScore a p.1 p.2) acc) k' 0 =
        getD acc k' 0 + ((l.filter (fun p => p.1 = k')).map Prod.snd).sum := by
  induction l with
  | nil => intro acc; simp
  | cons q rest ih =>
    intro acc
    simp only [List.foldl_cons]
    by_cases h : q.1 = k'
    · rw [ih, getD_addScore, List.filter_cons, if_pos h,
        if_pos (show (decide (q.1 = k')) = true by simp [h])]
      simp only [List.map_cons, List.sum_cons]
      ring
    · rw [ih, getD_addScore, List.filter_cons, if_neg h,
        if_neg (show ¬(decide (q.1 = k')) = true by simp [h])]
      ring

/-- The `all_emotions` value at a key is that label's score sum across all
messages. -/
theorem getD_allEmotions (msgs : List MessageAnalysis) (k : String) :
    getD (allEmotions msgs) k 0 = labelSum msgs k := by
  unfold allEmotions
  suffices h : ∀ acc : List (String × ℚ),
      getD (msgs.foldl
        (fun acc m => m.emotion_scores.foldl (fun a p => addScore a p.1 p.2) acc)
        acc) k 0 = getD acc k 0 + labelSum msgs k by
    simpa [getD] using h []
  induction msgs with
  | nil => intro acc; simp [labelSum]
  | cons m rest ih =>
    intro acc
    simp only [List.foldl_cons]
    rw [ih, getD_foldl_addScore]
    simp only [labelSum, List.map_cons, List.sum_cons]
    ring

/-- Summing an association list's values after dividing each by a constant
divides the total. -/
theorem sum_map_div_snd (l : List (String × ℚ)) (c : ℚ) :
    (l.map (fun p => p.2 / c)).sum = (l.map Prod.snd).sum / c := by
  induction l with
  | nil => simp
  | cons q rest ih => simp [ih, add_div]

/-- C7: for every non-empty conversation with positive grand total of
emotion scores, each label's value in the conversation-level emotion
distribution is that label's score sum across all messages divided by the
grand total over all labels and messages, and consequently the
distribution's values sum to exactly 1. -/
theorem C7_distribution_normalized (msgs : List MessageAnalysis)
    (hne : msgs ≠ []) (htot : 0 < grandTotal msgs) :
    (∀ q ∈ (aggregateOk msgs).emotion_distribution,
      q.2 = labelSum msgs q.1 / grandTotal msgs) ∧
    ((aggregateOk msgs).emotion_distribution.map Prod.snd).sum = 1 := by
  have htots : ((allEmotions msgs).map Prod.snd).sum = grandTotal msgs :=
    sum_snd_allEmotions msgs
  have hdist_proj : (aggregateOk msgs).emotion_distribution =
      (allEmotions msgs).map
        (fun p => (p.1, p.2 / ((allEmotions msgs).map Prod.snd).sum)) := rfl
  constructor
  · intro q hq
    rw [hdist_proj] at hq
    obtain ⟨p, hp, rfl⟩ := List.mem_map.mp hq
    show p.2 / ((allEmotions msgs).map Prod.snd).sum =
      labelSum msgs p.1 / grandTotal msgs
    rw [htots]
    congr 1
    have h1 : getD (allEmotions msgs) p.1 0 = p.2 :=
      getD_eq_of_mem _ p hp (nodup_keys_allEmotions msgs)
    rw [← h1, getD_allEmotions]
  · rw [hdist_proj]
    have hmm : ((allEmotions msgs).map
        (fun p => (p.1, p.2 / ((allEmotions msgs).map Prod.snd).sum))).map
          Prod.snd =
        (allEmotions msgs).map
          (fun p => p.2 / ((allEmotions msgs).map Prod.snd).sum) := by
      rw [List.map_map]
      rfl
    rw [hmm, sum_map_div_snd, htots, div_self (ne_of_gt htot)]

/-- Witness for C7 on the concrete one-message conversation. -/
theorem C7_distribution_normalized_witness :
    ([witnessMsg] ≠ []) ∧ (0 < grandTotal [witnessMsg]) ∧
    ((aggregateOk [witnessMsg]).emotion_distribution.map Prod.snd).sum = 1 :=
  ⟨by simp, by norm_num [grandTotal, witnessMsg],
   (C7_distribution_normalized [witnessMsg] (by simp)
      (by norm_num [grandTotal, witnessMsg])).2⟩

end EmotionAnalysis
